import Mathlib

/-!
Verification of the liquidation-bot repository: a shallow embedding of the
protocol decoding, opportunity evaluation, arbitrage evaluation, instruction
assembly and execution-guard logic, with theorems settling the specification
claims about them.

Conventions of the embedding:
* machine integers are modelled as `ℕ` / `ℤ` with explicit wrapping
  (`% 2^64`, two's-complement reinterpretation) at the places the source
  performs `as` casts or fixed-width arithmetic;
* Rust `i64`/`i128` division (truncation toward zero) is `Int.tdiv`;
* the `u128 as f64` casts and the `f64` division of the health-ratio
  computation are modelled exactly: operands are rounded to the nearest
  binary64 value (53-bit mantissa, ties to even) and the division is
  correctly rounded, as IEEE 754 prescribes; `Decimal` arithmetic, exact
  at the magnitudes it is applied to, is exact rational arithmetic;
* byte buffers are `List ℕ`; 32-byte addresses read from buffers are
  `List ℕ`, already-derived addresses passed between components are opaque
  naturals.
-/

namespace LiquidationBot

/-! ## Machine-integer helpers -/

/-- Reinterpret a `u64` bit pattern (a natural, reduced mod `2^64`) as an
`i64`, i.e. the Rust `as i64` cast. -/
def i64ofU64 (n : ℕ) : ℤ :=
  if n % 2 ^ 64 < 2 ^ 63 then (n % 2 ^ 64 : ℤ) else (n % 2 ^ 64 : ℤ) - 2 ^ 64

/-- Wrap an integer into the `i64` range, i.e. two's-complement overflow
behaviour of 64-bit signed arithmetic. -/
def wrapI64 (z : ℤ) : ℤ :=
  (z + 2 ^ 63) % 2 ^ 64 - 2 ^ 63

/-- Little-endian byte list to natural number (`u64::from_le_bytes` /
`u128::from_le_bytes` on the corresponding slice lengths). -/
def leNat (bs : List ℕ) : ℕ :=
  bs.foldr (fun b acc => b + 256 * acc) 0

/-- The 8 little-endian bytes of a `u64` value (`u64::to_le_bytes`). -/
def u64le (n : ℕ) : List ℕ :=
  [n % 256, n / 256 % 256, n / 256 ^ 2 % 256, n / 256 ^ 3 % 256,
   n / 256 ^ 4 % 256, n / 256 ^ 5 % 256, n / 256 ^ 6 % 256, n / 256 ^ 7 % 256]

/-- `Pubkey::default()`: 32 zero bytes. -/
def zero32 : List ℕ := List.replicate 32 0

/-- Read `n` bytes of `data` starting at `off`; `none` when out of bounds
(the `try_into().ok()?` pattern of the decoder). -/
def sliceN (data : List ℕ) (off n : ℕ) : Option (List ℕ) :=
  if off + n ≤ data.length then some ((data.drop off).take n) else none

/-! ## utils.rs: profit estimation (math::estimate_profit) -/

/-- `math::estimate_profit` from src/utils.rs lines 169-179.
`liab_amount : u64`, `liquidation_bonus_bps : u16`, `gas_fee : u64`,
`swap_slippage_bps : u16`, result `i64`.  The `as i64` casts and the 64-bit
products and subtractions are modelled with explicit two's-complement
wrapping; `/ 10000` is `i64` division, truncating toward zero. -/
def estimate_profit (liab_amount liquidation_bonus_bps gas_fee swap_slippage_bps : ℕ) : ℤ :=
  let l : ℤ := i64ofU64 liab_amount
  let bonus : ℤ := Int.tdiv (wrapI64 (l * (liquidation_bonus_bps % 2 ^ 16 : ℕ))) 10000
  let slippage_cost : ℤ := Int.tdiv (wrapI64 (l * (swap_slippage_bps % 2 ^ 16 : ℕ))) 10000
  wrapI64 (wrapI64 (bonus - i64ofU64 gas_fee) - slippage_cost)

/-! ## scanner.rs: Kamino obligation decoding and evaluation -/

/-- Decoded Kamino obligation (struct `KaminoObligation`, src/scanner.rs
lines 35-50). 128-bit scaled values are naturals; pubkeys are byte lists. -/
structure KaminoObligation where
  tag : ℕ
  last_update_slot : ℕ
  lending_market : List ℕ
  owner : List ℕ
  deposited_value_sf : ℕ
  borrowed_assets_market_value_sf : ℕ
  allowed_borrow_value_sf : ℕ
  unhealthy_borrow_value_sf : ℕ
  deposit_reserve : List ℕ
  deposited_amount : ℕ
  borrow_reserve : List ℕ
  borrowed_amount_sf : ℕ
  deriving DecidableEq

/-- The sub-record scan loops of `from_account_data` (src/scanner.rs lines
103-117 and 126-140): walk indices `is` (source: `0..8`), at entry offset
`start + i * stride`; break returning defaults when `offset + bound`
overruns the buffer; otherwise take the first entry whose 32-byte reserve
address is non-default together with its `readLen`-byte little-endian
amount at `offset + 32`. -/
def scanFirstReserve (data : List ℕ) (start stride bound readLen : ℕ) :
    List ℕ → List ℕ × ℕ
  | [] => (zero32, 0)
  | i :: rest =>
    let offset := start + i * stride
    if data.length < offset + bound then (zero32, 0)
    else
      let reserve := (data.drop offset).take 32
      if reserve = zero32 then scanFirstReserve data start stride bound readLen rest
      else (reserve, leNat ((data.drop (offset + 32)).take readLen))

/-- `KaminoObligation::from_account_data` (src/scanner.rs lines 57-157):
reject buffers shorter than 500 bytes, then decode at fixed offsets.  The
discriminator is read (and kept as `tag`) but a mismatch with
`KAMINO_OBLIGATION_DISCRIMINATOR` is only logged, never a failure. -/
def KaminoObligation.from_account_data (data : List ℕ) : Option KaminoObligation :=
  if data.length < 500 then none
  else do
    let disc ← sliceN data 0 8
    let lastUpdateBytes ← sliceN data 8 8
    let lendingMarket ← sliceN data 24 32
    let ownerBytes ← sliceN data 56 32
    let depositedBytes ← sliceN data 88 16
    let borrowedBytes ← sliceN data 104 16
    let allowedBytes ← sliceN data 120 16
    let unhealthyBytes ← sliceN data 136 16
    let dep := if 264 < data.length then scanFirstReserve data 200 80 40 8 (List.range 8)
               else (zero32, 0)
    let bor := if 914 < data.length then scanFirstReserve data 850 96 48 16 (List.range 8)
               else (zero32, 0)
    some {
      tag := leNat disc
      last_update_slot := leNat lastUpdateBytes
      lending_market := lendingMarket
      owner := ownerBytes
      deposited_value_sf := leNat depositedBytes
      borrowed_assets_market_value_sf := leNat borrowedBytes
      allowed_borrow_value_sf := leNat allowedBytes
      unhealthy_borrow_value_sf := leNat unhealthyBytes
      deposit_reserve := dep.1
      deposited_amount := dep.2
      borrow_reserve := bor.1
      borrowed_amount_sf := bor.2 }

/-- `KaminoObligation::is_liquidatable` (src/scanner.rs lines 168-175):
false when nothing is borrowed, otherwise borrowed value strictly above the
unhealthy threshold. -/
def KaminoObligation.is_liquidatable (ob : KaminoObligation) : Bool :=
  if ob.borrowed_assets_market_value_sf = 0 then false
  else decide (ob.unhealthy_borrow_value_sf < ob.borrowed_assets_market_value_sf)

/-- `f64::MAX`, the value `health_ratio` returns for a debt-free account,
as an exact rational. -/
def f64MaxQ : ℚ := ((2 ^ 1024 - 2 ^ 971 : ℕ) : ℚ)

/-- Floor of the base-2 logarithm of a positive rational, computable from
the bit lengths of numerator and denominator with a one-step correction. -/
def floorLog2 (q : ℚ) : ℤ :=
  let a : ℤ := (q.num.toNat.log2 : ℤ)
  let b : ℤ := (q.den.log2 : ℤ)
  if (2 : ℚ) ^ (a - b) ≤ q then a - b else a - b - 1

/-- Round a positive rational to the nearest IEEE binary64 value: scale
to a 53-bit mantissa in `[2^52, 2^53)`, round to the nearest integer with
ties to even, and scale back.  This is exact IEEE round-to-nearest-even on
the normal range, which covers every value this development applies it to
(positive `u128` values and their quotients); overflow and subnormals are
out of that range and not modelled. -/
def roundF64pos (q : ℚ) : ℚ :=
  let e : ℤ := floorLog2 q - 52
  let m : ℚ := q / 2 ^ e
  let n : ℤ := ⌊m⌋
  let r : ℤ :=
    if m - n < 1 / 2 then n
    else if 1 / 2 < m - n then n + 1
    else if n % 2 = 0 then n else n + 1
  (r : ℚ) * 2 ^ e

/-- The `u128 as f64` cast: zero is exact, a positive value rounds to the
nearest binary64 value. -/
def u128ToF64 (n : ℕ) : ℚ := if n = 0 then 0 else roundF64pos (n : ℚ)

/-- `KaminoObligation::health_ratio` (src/scanner.rs lines 178-186) with
`f64` semantics: both `u128` operands are cast with round-to-nearest, and
the `f64` division is correctly rounded, i.e. the exact quotient of the
rounded operands is itself rounded to nearest (both operands are positive
on this branch, so no zero, infinite or NaN case arises). -/
def KaminoObligation.healthRatioF64 (ob : KaminoObligation) : ℚ :=
  if ob.borrowed_assets_market_value_sf = 0 then f64MaxQ
  else if ob.unhealthy_borrow_value_sf = 0 then 0
  else roundF64pos (u128ToF64 ob.unhealthy_borrow_value_sf /
        u128ToF64 ob.borrowed_assets_market_value_sf)

/-- A liquidation opportunity (struct `LiquidationOpportunity`,
src/utils.rs lines 13-28).  `health_factor` is the exact rational standing
for the `Decimal` value; the wall-clock `timestamp` field is omitted from
the embedding. -/
structure LiquidationOpportunity where
  protocol : String
  account_address : List ℕ
  owner : List ℕ
  asset_bank : List ℕ
  liab_bank : List ℕ
  asset_mint : List ℕ
  liab_mint : List ℕ
  health_factor : ℚ
  asset_amount : ℕ
  liab_amount : ℕ
  max_liquidatable : ℕ
  liquidation_bonus_bps : ℕ
  estimated_profit_lamports : ℤ
  deriving DecidableEq

/-- `total_debt` of `scan_kamino` (src/scanner.rs line 451): the scaled
`u128` borrowed value divided by `1_000_000_000_000`, cast `as u64`. -/
def kaminoTotalDebt (ob : KaminoObligation) : ℕ :=
  ob.borrowed_assets_market_value_sf % 2 ^ 128 / 1000000000000 % 2 ^ 64

/-- Evaluation of one decoded Kamino obligation inside the `scan_kamino`
loop (src/scanner.rs lines 447-482): eligibility gate, 50% close factor,
500 bps bonus, 5000 gas, slippage `max_slippage_percent as u16 * 100`, and
the silent drop of non-positive estimated profit.  `account_address` is the
fetched account's key. -/
def scanKaminoEval (account_address : List ℕ) (ob : KaminoObligation)
    (max_slippage_percent : ℕ) : Option LiquidationOpportunity :=
  if ob.is_liquidatable then
    let total_debt := kaminoTotalDebt ob
    let max_liquidatable := total_debt / 2
    let bonus_bps := 500
    let estimated_profit :=
      estimate_profit max_liquidatable bonus_bps 5000 (max_slippage_percent % 2 ^ 8 * 100)
    if 0 < estimated_profit then
      some {
        protocol := "Kamino"
        account_address := account_address
        owner := ob.owner
        asset_bank := ob.deposit_reserve
        liab_bank := ob.borrow_reserve
        asset_mint := zero32
        liab_mint := zero32
        health_factor := ob.healthRatioF64
        asset_amount := ob.deposited_amount
        liab_amount := ob.borrowed_amount_sf % 2 ^ 128 / 1000000000000 % 2 ^ 64
        max_liquidatable := max_liquidatable
        liquidation_bonus_bps := bonus_bps
        estimated_profit_lamports := estimated_profit }
    else none
  else none

/-! ## utils.rs: WrappedI80F48 and the Marginfi health computation -/

/-- `WrappedI80F48` (src/utils.rs lines 58-61): a 16-byte buffer. -/
structure WrappedI80F48 where
  value : List ℕ
  deriving DecidableEq

/-- `WrappedI80F48::to_decimal` (src/utils.rs lines 64-68): the first 8
bytes interpreted as a little-endian `i64`, divided by `1_000_000_000`.
The `Decimal` arithmetic is exact at these magnitudes and is modelled by
exact rational arithmetic. -/
def WrappedI80F48.to_decimal (w : WrappedI80F48) : ℚ :=
  let int_part : ℤ := i64ofU64 (leNat (w.value.take 8))
  (int_part : ℚ) / (1000000000 : ℚ)

/-- One `Balance` of a Marginfi lending account (src/utils.rs lines 46-55). -/
structure Balance where
  active : Bool
  bank_pk : List ℕ
  asset_shares : WrappedI80F48
  liability_shares : WrappedI80F48
  emissions_outstanding : WrappedI80F48
  last_update : ℕ
  deriving DecidableEq

/-- `Decimal::to_i128` truncation toward zero of an exact rational. -/
def truncI128 (q : ℚ) : ℤ := Int.tdiv q.num (q.den : ℤ)

/-- The per-account totals loop of `scan_marginfi` (src/scanner.rs lines
354-377): sum `(shares.to_decimal() * 1e9).to_i128()` over the active
balances with positive asset resp. liability shares. -/
def marginfiTotals (balances : List Balance) : ℤ × ℤ :=
  balances.foldl
    (fun t b =>
      if b.active then
        let assets := b.asset_shares.to_decimal
        let liabs := b.liability_shares.to_decimal
        let t1 := if 0 < assets then t.1 + truncI128 (assets * (1000000000 : ℚ)) else t.1
        let t2 := if 0 < liabs then t.2 + truncI128 (liabs * (1000000000 : ℚ)) else t.2
        (t1, t2)
      else t)
    (0, 0)

/-- The Marginfi health ratio `total_assets / total_liabs` (src/scanner.rs
lines 379-380), defined when both totals are positive. -/
def marginfiHealth (balances : List Balance) : Option ℚ :=
  let t := marginfiTotals balances
  if 0 < t.2 ∧ 0 < t.1 then some ((t.1 : ℚ) / (t.2 : ℚ)) else none

/-! ## arbitrage.rs: cross-DEX arbitrage evaluation -/

/-- Supported venues (enum `Dex`, src/arbitrage.rs lines 23-27). -/
inductive Dex where
  | Raydium
  | Orca
  | Jupiter
  deriving DecidableEq

/-- A liquidity pool (struct `LiquidityPool`, src/arbitrage.rs lines
41-49); `reserve_a`, `reserve_b` are `u64`, `fee_bps` is `u16`. -/
structure LiquidityPool where
  dex : Dex
  address : ℕ
  token_a : ℕ
  token_b : ℕ
  reserve_a : ℕ
  reserve_b : ℕ
  fee_bps : ℕ
  deriving DecidableEq

/-- `LiquidityPool::get_amount_out` (src/arbitrage.rs lines 69-87):
constant-product output with the fee applied to the input, computed in
`u128` and cast back `as u64`.  For `fee_bps ≤ 10000` and `u64` inputs the
`u128` arithmetic cannot overflow, so only the final cast carries a
wrap. -/
def LiquidityPool.get_amount_out (p : LiquidityPool) (amount_in : ℕ) (is_a_to_b : Bool) : ℕ :=
  let reserve_in := if is_a_to_b then p.reserve_a else p.reserve_b
  let reserve_out := if is_a_to_b then p.reserve_b else p.reserve_a
  if reserve_in = 0 ∨ reserve_out = 0 then 0
  else
    let amount_in_with_fee := amount_in * (10000 - p.fee_bps) / 10000
    let numerator := amount_in_with_fee * reserve_out
    let denominator := reserve_in + amount_in_with_fee
    numerator / denominator % 2 ^ 64

/-- An arbitrage opportunity (struct `ArbitrageOpportunity`,
src/arbitrage.rs lines 92-100); `profit_percent` is the exact rational
standing for the `f64` value. -/
structure ArbitrageOpportunity where
  token_in : ℕ
  token_out : ℕ
  amount_in : ℕ
  expected_profit : ℕ
  profit_percent : ℚ
  path : List (Dex × ℕ)
  flash_loan_fee : ℕ
  deriving DecidableEq

/-- Placeholder pool for (always in-bounds) vector indexing. -/
def dummyPool : LiquidityPool :=
  { dex := Dex.Raydium, address := 0, token_a := 0, token_b := 0,
    reserve_a := 0, reserve_b := 0, fee_bps := 0 }

/-- The ordered pairs `(i, j)` with `i ≠ j` that the double loop of
`find_cross_dex_arb` visits (src/arbitrage.rs lines 265-281), in loop
order. -/
def crossPairs (n : ℕ) : List (ℕ × ℕ) :=
  (List.range n).flatMap fun i =>
    (List.range n).filterMap fun j => if i = j then none else some (i, j)

/-- The round-trip output for pair `(i, j)`: buy `A → B` on pool `i`, sell
`B → A` on pool `j` (src/arbitrage.rs lines 272-273). -/
def roundtripOut (pools : List LiquidityPool) (amount : ℕ) (ij : ℕ × ℕ) : ℕ :=
  let amount_out_1 := (pools.getD ij.1 dummyPool).get_amount_out amount true
  (pools.getD ij.2 dummyPool).get_amount_out amount_out_1 false

/-- The loop-computed signed surplus for one pair:
`amount_out_2 as i64 - amount as i64` (src/arbitrage.rs line 275). -/
def surplusI64 (pools : List LiquidityPool) (amount : ℕ) (ij : ℕ × ℕ) : ℤ :=
  i64ofU64 (roundtripOut pools amount ij) - i64ofU64 amount

/-- The best-pair fold of `find_cross_dex_arb` (src/arbitrage.rs lines
261-281): running `(best_profit, best_path)`, updated when a pair's surplus
strictly exceeds the best so far. -/
def arbFold (pools : List LiquidityPool) (amount : ℕ) : ℤ × Option (ℕ × ℕ) :=
  (crossPairs pools.length).foldl
    (fun st ij =>
      if st.1 < surplusI64 pools amount ij then (surplusI64 pools amount ij, some ij) else st)
    (0, none)

/-- `ArbitrageScanner::find_cross_dex_arb` (src/arbitrage.rs lines
248-309), for the pool list looked up for the token pair.  The flash-loan
fee `(amount as f64 * 0.0009) as u64` is modelled as the exact truncation
`amount * 9 / 10000`, which agrees with the `f64` computation at the
amounts used in the theorems below. -/
def find_cross_dex_arb (pools : List LiquidityPool) (token_a token_b : ℕ)
    (amount : ℕ) : Option ArbitrageOpportunity :=
  if pools.length < 2 then none
  else
    let st := arbFold pools amount
    let best_profit := st.1
    if best_profit ≤ 0 then none
    else
      match st.2 with
      | none => none
      | some (buy_idx, sell_idx) =>
        let flash_loan_fee := amount * 9 / 10000
        if best_profit.toNat ≤ flash_loan_fee then none
        else
          let net_profit := best_profit.toNat - flash_loan_fee
          some {
            token_in := token_a
            token_out := token_a
            amount_in := amount
            expected_profit := net_profit
            profit_percent := (net_profit : ℚ) / (amount : ℚ) * 100
            path := [((pools.getD buy_idx dummyPool).dex, (pools.getD buy_idx dummyPool).address),
                     ((pools.getD sell_idx dummyPool).dex, (pools.getD sell_idx dummyPool).address)]
            flash_loan_fee := flash_loan_fee }

/-- The specification-shaped best round-trip surplus: the maximum, over the
visited pairs, of the exact difference `A' - A` (and `0` when no pair is
profitable), used to state what the loop's `best_profit` computes. -/
def bestRoundtripSurplus (pools : List LiquidityPool) (amount : ℕ) : ℤ :=
  ((crossPairs pools.length).map
    (fun ij => (roundtripOut pools amount ij : ℤ) - (amount : ℤ))).foldl max 0

/-! ## liquidator.rs: instruction assembly -/

/-- An account reference of an instruction (`AccountMeta`); already-derived
addresses are opaque naturals. -/
structure AccountMeta where
  pubkey : ℕ
  is_signer : Bool
  is_writable : Bool
  deriving DecidableEq

/-- `AccountMeta::new`: writable account. -/
def AccountMeta.new (pk : ℕ) (signer : Bool) : AccountMeta :=
  { pubkey := pk, is_signer := signer, is_writable := true }

/-- `AccountMeta::new_readonly`. -/
def AccountMeta.new_readonly (pk : ℕ) (signer : Bool) : AccountMeta :=
  { pubkey := pk, is_signer := signer, is_writable := false }

/-- A built instruction: program id, ordered account references, byte
payload. -/
structure Instruction where
  program_id : ℕ
  accounts : List AccountMeta
  data : List ℕ
  deriving DecidableEq

/-- Opaque stand-in for the Kamino program id. -/
def KAMINO_PROGRAM : ℕ := 1

/-- `kamino_instructions::FLASH_BORROW_DISCRIMINATOR` (src/liquidator.rs
line 29). -/
def FLASH_BORROW_DISCRIMINATOR : List ℕ := [0x87, 0xe7, 0x34, 0xa7, 0x07, 0x34, 0xd4, 0xc1]

/-- `kamino_instructions::FLASH_REPAY_DISCRIMINATOR` (src/liquidator.rs
line 33). -/
def FLASH_REPAY_DISCRIMINATOR : List ℕ := [0xb9, 0x75, 0x00, 0xcb, 0x60, 0xf5, 0xb4, 0xba]

/-- `kamino_instructions::LIQUIDATE_DISCRIMINATOR` (src/liquidator.rs
line 37). -/
def LIQUIDATE_DISCRIMINATOR : List ℕ := [0xb1, 0x47, 0x9a, 0xbc, 0xe2, 0x85, 0x4a, 0x37]

/-- `kamino_instructions::build_flash_borrow_ix` (src/liquidator.rs lines
41-85): payload is the 8-byte discriminator followed by the little-endian
amount; optional referrer accounts are inserted before the trailing sysvar
and token-program references. -/
def build_flash_borrow_ix (lending_market lending_market_authority reserve
    reserve_liquidity_mint reserve_source_liquidity user_destination_liquidity : ℕ)
    (referrer_token_state referrer_account : Option ℕ)
    (sysvar_info token_program : ℕ) (amount : ℕ) : Instruction :=
  let base := [AccountMeta.new_readonly lending_market false,
               AccountMeta.new_readonly lending_market_authority false,
               AccountMeta.new reserve false,
               AccountMeta.new_readonly reserve_liquidity_mint false,
               AccountMeta.new reserve_source_liquidity false,
               AccountMeta.new user_destination_liquidity false]
  let withRef := base ++ (referrer_token_state.map (fun r => AccountMeta.new r false)).toList
                      ++ (referrer_account.map (fun r => AccountMeta.new r false)).toList
  { program_id := KAMINO_PROGRAM
    accounts := withRef ++ [AccountMeta.new_readonly sysvar_info false,
                            AccountMeta.new_readonly token_program false]
    data := FLASH_BORROW_DISCRIMINATOR ++ u64le amount }

/-- `kamino_instructions::build_flash_repay_ix` (src/liquidator.rs lines
89-136): payload is the 8-byte discriminator, the little-endian amount,
then the single `borrow_instruction_index` byte. -/
def build_flash_repay_ix (user_source_liquidity reserve_destination_liquidity
    reserve_liquidity_fee_receiver : ℕ)
    (referrer_token_state referrer_account : Option ℕ)
    (reserve lending_market user_transfer_authority sysvar_info token_program : ℕ)
    (amount : ℕ) (borrow_instruction_index : ℕ) : Instruction :=
  let base := [AccountMeta.new user_source_liquidity false,
               AccountMeta.new reserve_destination_liquidity false,
               AccountMeta.new reserve_liquidity_fee_receiver false]
  let withRef := base ++ (referrer_token_state.map (fun r => AccountMeta.new r false)).toList
                      ++ (referrer_account.map (fun r => AccountMeta.new r false)).toList
  { program_id := KAMINO_PROGRAM
    accounts := withRef ++ [AccountMeta.new reserve false,
                            AccountMeta.new_readonly lending_market false,
                            AccountMeta.new_readonly user_transfer_authority true,
                            AccountMeta.new_readonly sysvar_info false,
                            AccountMeta.new_readonly token_program false]
    data := FLASH_REPAY_DISCRIMINATOR ++ u64le amount ++ [borrow_instruction_index % 2 ^ 8] }

/-- `kamino_instructions::build_liquidate_ix` (src/liquidator.rs lines
140-195): payload is the discriminator and three little-endian `u64`
arguments. -/
def build_liquidate_ix (liquidator obligation lending_market lending_market_authority
    repay_reserve repay_reserve_liquidity_mint repay_reserve_liquidity_supply
    withdraw_reserve withdraw_reserve_collateral_mint withdraw_reserve_collateral_supply
    withdraw_reserve_liquidity_supply withdraw_reserve_liquidity_fee_receiver
    user_source_liquidity user_destination_collateral user_destination_liquidity
    token_program sysvar_info : ℕ)
    (liquidity_amount min_acceptable_received_collateral_amount
     max_allowed_ltv_override_percent : ℕ) : Instruction :=
  { program_id := KAMINO_PROGRAM
    accounts := [AccountMeta.new liquidator true,
                 AccountMeta.new obligation false,
                 AccountMeta.new_readonly lending_market false,
                 AccountMeta.new_readonly lending_market_authority false,
                 AccountMeta.new repay_reserve false,
                 AccountMeta.new_readonly repay_reserve_liquidity_mint false,
                 AccountMeta.new repay_reserve_liquidity_supply false,
                 AccountMeta.new withdraw_reserve false,
                 AccountMeta.new_readonly withdraw_reserve_collateral_mint false,
                 AccountMeta.new withdraw_reserve_collateral_supply false,
                 AccountMeta.new withdraw_reserve_liquidity_supply false,
                 AccountMeta.new withdraw_reserve_liquidity_fee_receiver false,
                 AccountMeta.new user_source_liquidity false,
                 AccountMeta.new user_destination_collateral false,
                 AccountMeta.new user_destination_liquidity false,
                 AccountMeta.new_readonly token_program false,
                 AccountMeta.new_readonly sysvar_info false]
    data := LIQUIDATE_DISCRIMINATOR ++ u64le liquidity_amount
              ++ u64le min_acceptable_received_collateral_amount
              ++ u64le max_allowed_ltv_override_percent }

/-- The instruction sequence assembled by
`Liquidator::execute_kamino_liquidation` (src/liquidator.rs lines 417-473):
`[flash_borrow, liquidate, flash_repay]`, repay built with
`borrow_instruction_index = 0`.  Addresses derived by sha256-based PDA
derivation are taken as parameters; `flash_loan_amount` is the already
computed fee-buffered amount. -/
def executeKaminoInstructions
    (lending_market lending_market_authority token_program sysvar_instructions
     liquidator_repay_ata liquidator_collateral_ata
     repay_reserve_liquidity_supply withdraw_reserve_liquidity_supply
     withdraw_reserve_collateral_supply withdraw_reserve_fee_receiver
     liab_bank liab_mint asset_bank asset_mint account_address keypair_pubkey : ℕ)
    (flash_loan_amount liab_amount : ℕ) : List Instruction :=
  let flash_borrow_ix := build_flash_borrow_ix lending_market lending_market_authority
    liab_bank liab_mint repay_reserve_liquidity_supply liquidator_repay_ata
    none none sysvar_instructions token_program flash_loan_amount
  let liquidate_ix := build_liquidate_ix keypair_pubkey account_address lending_market
    lending_market_authority liab_bank liab_mint repay_reserve_liquidity_supply
    asset_bank asset_mint withdraw_reserve_collateral_supply
    withdraw_reserve_liquidity_supply withdraw_reserve_fee_receiver
    liquidator_repay_ata liquidator_collateral_ata liquidator_collateral_ata
    token_program sysvar_instructions liab_amount 1 0
  let flash_repay_ix := build_flash_repay_ix liquidator_repay_ata
    repay_reserve_liquidity_supply withdraw_reserve_fee_receiver none none
    liab_bank lending_market keypair_pubkey sysvar_instructions token_program
    flash_loan_amount 0
  [flash_borrow_ix, liquidate_ix, flash_repay_ix]

/-- Placeholder instruction for (always in-bounds) list indexing. -/
def dummyInstruction : Instruction := { program_id := 0, accounts := [], data := [] }

/-! ## liquidator.rs: execution guard and dry-run short-circuit -/

/-- `LiquidationResult` (src/liquidator.rs lines 282-287). -/
structure LiquidationResult where
  success : Bool
  signature : Option ℕ
  profit_lamports : ℤ
  error : Option String
  deriving DecidableEq

/-- `Liquidator::execute` (src/liquidator.rs lines 314-322) as a transition
on the `EXECUTING` flag: the `compare_exchange(false, true)` try-acquire
fails fast when the flag is already set, leaving it unchanged; otherwise
the inner result (a parameter, since it involves chain I/O) is returned
after the unconditional `store(false)` release.  Result: (returned value,
final flag). -/
def Liquidator.execute (executing : Bool)
    (internal : Except String LiquidationResult) :
    Except String LiquidationResult × Bool :=
  if executing then (Except.error "Liquidation already in progress", executing)
  else (internal, false)

/-- The RPC operations `execute_internal` could reach. -/
inductive RpcCall where
  | simulate
  | sendAndConfirm
  | getBalance
  | getLatestBlockhash
  deriving DecidableEq

/-- `Liquidator::execute_internal` (src/liquidator.rs lines 324-351)
instrumented with the list of chain RPC calls it performs: with `dry_run`
set it returns the synthetic success of `Liquidator::simulate` (lines
342-351) carrying the opportunity's estimated profit, no signature and no
RPC traffic; otherwise it runs `execute_real`, abstracted as a
parameter. -/
def Liquidator.execute_internal (dry_run : Bool) (opp : LiquidationOpportunity)
    (real : LiquidationResult × List RpcCall) :
    LiquidationResult × List RpcCall :=
  if dry_run then
    ({ success := true, signature := none,
       profit_lamports := opp.estimated_profit_lamports, error := none }, [])
  else real

/-! ## config.rs: configuration -/

/-- Enabled protocols (enum `Protocol`, src/config.rs lines 31-35). -/
inductive Protocol where
  | Kamino
  | Marginfi
  | JupiterLend
  deriving DecidableEq

/-- `BotConfig` (src/config.rs lines 13-28). -/
structure BotConfig where
  rpc_url : String
  helius_api_key : Option String
  poll_interval_seconds : ℕ
  min_profit_threshold : ℕ
  max_slippage_percent : ℕ
  dry_run : Bool
  batch_size : ℕ
  rpc_timeout_ms : ℕ
  wallet_private_key : String
  enabled_protocols : List Protocol
  priority_assets : List String
  max_oracle_age_seconds : ℕ
  max_retries : ℕ

/-- `BotConfig::default` (src/config.rs lines 113-136); `dry_run` is true
by default as the safety posture. -/
def BotConfig.defaultConfig : BotConfig :=
  { rpc_url := "https://api.mainnet-beta.solana.com"
    helius_api_key := none
    poll_interval_seconds := 60
    min_profit_threshold := 5000
    max_slippage_percent := 3
    dry_run := true
    batch_size := 1000
    rpc_timeout_ms := 30000
    wallet_private_key := ""
    enabled_protocols := [Protocol.Kamino, Protocol.Marginfi, Protocol.JupiterLend]
    priority_assets := ["SOL", "USDC", "USDT", "jitoSOL"]
    max_oracle_age_seconds := 300
    max_retries := 3 }

/-- A sample decoded obligation: debt strictly above a positive unhealthy
threshold. -/
def sampleObligation : KaminoObligation :=
  { tag := 0, last_update_slot := 0, lending_market := zero32, owner := zero32,
    deposited_value_sf := 3000000000000, borrowed_assets_market_value_sf := 2,
    allowed_borrow_value_sf := 0, unhealthy_borrow_value_sf := 1,
    deposit_reserve := zero32, deposited_amount := 0, borrow_reserve := zero32,
    borrowed_amount_sf := 0 }

/-- The decoded position of scenario A: scaled debt `2e12`, unhealthy
threshold `1e12`. -/
def scenarioAObligation : KaminoObligation :=
  { tag := 0, last_update_slot := 0, lending_market := zero32, owner := zero32,
    deposited_value_sf := 3000000000000, borrowed_assets_market_value_sf := 2000000000000,
    allowed_borrow_value_sf := 0, unhealthy_borrow_value_sf := 1000000000000,
    deposit_reserve := zero32, deposited_amount := 0, borrow_reserve := zero32,
    borrowed_amount_sf := 0 }

/-- An obligation whose debt strictly exceeds its positive unhealthy
threshold while both `u128` values round to the same `f64`. -/
def hugeObligation : KaminoObligation :=
  { tag := 0, last_update_slot := 0, lending_market := zero32, owner := zero32,
    deposited_value_sf := 0, borrowed_assets_market_value_sf := 2 ^ 100 + 2 ^ 40,
    allowed_borrow_value_sf := 0, unhealthy_borrow_value_sf := 2 ^ 100,
    deposit_reserve := zero32, deposited_amount := 0, borrow_reserve := zero32,
    borrowed_amount_sf := 0 }

/-- The relation on balances "identical except possibly in the upper 8
bytes of the wrapped share values": same activity flag, same first 8 bytes
of asset and liability shares. -/
def balRel (b b' : Balance) : Prop :=
  b.active = b'.active
  ∧ b.asset_shares.value.take 8 = b'.asset_shares.value.take 8
  ∧ b.liability_shares.value.take 8 = b'.liability_shares.value.take 8

/-- A wrapped fixed-point value with arbitrary upper bytes. -/
def w80A : WrappedI80F48 :=
  { value := [1, 0, 0, 0, 0, 0, 0, 0, 7, 7, 7, 7, 7, 7, 7, 7] }

/-- The same lower 8 bytes as `w80A`, different upper bytes. -/
def w80B : WrappedI80F48 :=
  { value := [1, 0, 0, 0, 0, 0, 0, 0, 200, 8, 0, 0, 0, 0, 0, 1] }

/-- A balance using `w80A` for both share values. -/
def balA : Balance :=
  { active := true, bank_pk := zero32, asset_shares := w80A,
    liability_shares := w80A, emissions_outstanding := w80A, last_update := 0 }

/-- A balance using `w80B` for both share values. -/
def balB : Balance :=
  { active := true, bank_pk := zero32, asset_shares := w80B,
    liability_shares := w80B, emissions_outstanding := w80B, last_update := 5 }

/-- Concrete two-pool market for the arbitrage theorems: a tiny price gap
between two zero-fee pools, producing a round-trip surplus of 3 base units
on an input of 1000. -/
def cexPools : List LiquidityPool :=
  [{ dex := Dex.Raydium, address := 10, token_a := 1, token_b := 2,
     reserve_a := 1000000, reserve_b := 2000000, fee_bps := 0 },
   { dex := Dex.Orca, address := 11, token_a := 1, token_b := 2,
     reserve_a := 1000000, reserve_b := 1990000, fee_bps := 0 }]

/-! ## Helper lemmas -/

/-- The `u64 → i64` reinterpretation is the identity below `2^63`. -/
theorem i64ofU64_small (n : ℕ) (h : n < 2 ^ 63) : i64ofU64 n = (n : ℤ) := by
  unfold i64ofU64
  rw [Nat.mod_eq_of_lt (show n < 2 ^ 64 by omega)]
  rw [if_pos h]
  omega

/-- `i64` wrapping is the identity on the representable range. -/
theorem wrapI64_small (z : ℤ) (h1 : -2 ^ 63 ≤ z) (h2 : z < 2 ^ 63) : wrapI64 z = z := by
  unfold wrapI64
  rw [Int.emod_eq_of_lt (by omega) (by omega)]
  ring

/-- On inputs where none of the `i64` casts or operations of
`estimate_profit` wrap, the function computes exactly the specification
formula `liab * bonus / 10000 - gas - liab * slippage / 10000` with
truncating division. -/
theorem estimate_profit_eval (l b g s : ℕ) (hl : l < 2 ^ 63) (hb : b < 2 ^ 16)
    (hs : s < 2 ^ 16) (hlb : l * b < 2 ^ 63) (hls : l * s < 2 ^ 63)
    (hgs : g + l * s / 10000 < 2 ^ 63) :
    estimate_profit l b g s =
      ((l * b / 10000 : ℕ) : ℤ) - (g : ℤ) - ((l * s / 10000 : ℕ) : ℤ) := by
  have hg : g < 2 ^ 63 := by omega
  have e1 : b % 2 ^ 16 = b := Nat.mod_eq_of_lt hb
  have e2 : s % 2 ^ 16 = s := Nat.mod_eq_of_lt hs
  have hbdiv : l * b / 10000 < 2 ^ 63 := lt_of_le_of_lt (Nat.div_le_self _ _) hlb
  have hsdiv : l * s / 10000 < 2 ^ 63 := lt_of_le_of_lt (Nat.div_le_self _ _) hls
  simp only [estimate_profit]
  rw [i64ofU64_small l hl, i64ofU64_small g hg, e1, e2]
  rw [show ((l : ℤ) * (b : ℕ)) = ((l * b : ℕ) : ℤ) by push_cast; ring]
  rw [show ((l : ℤ) * (s : ℕ)) = ((l * s : ℕ) : ℤ) by push_cast; ring]
  rw [wrapI64_small ((l * b : ℕ) : ℤ) (by omega) (by exact_mod_cast hlb)]
  rw [wrapI64_small ((l * s : ℕ) : ℤ) (by omega) (by exact_mod_cast hls)]
  rw [show Int.tdiv ((l * b : ℕ) : ℤ) 10000 = ((l * b / 10000 : ℕ) : ℤ) from
        (Int.ofNat_tdiv (l * b) 10000).symm]
  rw [show Int.tdiv ((l * s : ℕ) : ℤ) 10000 = ((l * s / 10000 : ℕ) : ℤ) from
        (Int.ofNat_tdiv (l * s) 10000).symm]
  have c1 : (0 : ℤ) ≤ ((l * b / 10000 : ℕ) : ℤ) := by positivity
  have c2 : ((l * b / 10000 : ℕ) : ℤ) < 2 ^ 63 := by exact_mod_cast hbdiv
  have c3 : (0 : ℤ) ≤ ((l * s / 10000 : ℕ) : ℤ) := by positivity
  have c4 : (g : ℤ) + ((l * s / 10000 : ℕ) : ℤ) < 2 ^ 63 := by exact_mod_cast hgs
  have c5 : (0 : ℤ) ≤ (g : ℤ) := by positivity
  rw [wrapI64_small (((l * b / 10000 : ℕ) : ℤ) - (g : ℤ)) (by omega) (by omega)]
  rw [wrapI64_small _ (by omega) (by omega)]

/-! ## Claim theorems -/

/-- Bit-length brackets of `Nat.log2` transfer to a strict two-sided
bracket of the quotient of two positive naturals. -/
theorem ratio_bracket (a b : ℕ) (ha : a ≠ 0) (hb : b ≠ 0) :
    (2 : ℚ) ^ ((a.log2 : ℤ) - (b.log2 : ℤ) - 1) < (a : ℚ) / b
    ∧ (a : ℚ) / b < 2 ^ ((a.log2 : ℤ) - (b.log2 : ℤ) + 1) := by
  have h1 : 2 ^ a.log2 ≤ a := Nat.log2_self_le ha
  have h2 : a < 2 ^ (a.log2 + 1) := Nat.lt_log2_self
  have h3 : 2 ^ b.log2 ≤ b := Nat.log2_self_le hb
  have h4 : b < 2 ^ (b.log2 + 1) := Nat.lt_log2_self
  have hbQ : (0 : ℚ) < (b : ℚ) := by exact_mod_cast Nat.pos_of_ne_zero hb
  have hq1 : (0 : ℚ) < (2 : ℚ) ^ (a.log2 : ℕ) := by positivity
  have hq3 : (0 : ℚ) < (2 : ℚ) ^ (b.log2 : ℕ) := by positivity
  have c1 : ((2 : ℚ) ^ (a.log2 : ℕ)) ≤ (a : ℚ) := by exact_mod_cast h1
  have c2 : (a : ℚ) < 2 ^ (a.log2 + 1 : ℕ) := by exact_mod_cast h2
  have c3 : ((2 : ℚ) ^ (b.log2 : ℕ)) ≤ (b : ℚ) := by exact_mod_cast h3
  have c4 : (b : ℚ) < 2 ^ (b.log2 + 1 : ℕ) := by exact_mod_cast h4
  constructor
  · have e1 : (2 : ℚ) ^ ((a.log2 : ℤ) - (b.log2 : ℤ) - 1)
        = (2 : ℚ) ^ (a.log2 : ℕ) / (2 : ℚ) ^ (b.log2 + 1 : ℕ) := by
      rw [show ((a.log2 : ℤ) - (b.log2 : ℤ) - 1) = (a.log2 : ℤ) - ((b.log2 + 1 : ℕ) : ℤ) by
            push_cast; ring,
          zpow_sub₀ two_ne_zero, zpow_natCast, zpow_natCast]
    rw [e1, div_lt_div_iff₀ (by positivity) hbQ]
    calc (2 : ℚ) ^ (a.log2 : ℕ) * b
        < (2 : ℚ) ^ (a.log2 : ℕ) * 2 ^ (b.log2 + 1 : ℕ) := by
          exact mul_lt_mul_of_pos_left c4 hq1
      _ ≤ (a : ℚ) * 2 ^ (b.log2 + 1 : ℕ) := by
          exact mul_le_mul_of_nonneg_right c1 (by positivity)
  · have e2 : (2 : ℚ) ^ ((a.log2 : ℤ) - (b.log2 : ℤ) + 1)
        = (2 : ℚ) ^ (a.log2 + 1 : ℕ) / (2 : ℚ) ^ (b.log2 : ℕ) := by
      rw [show ((a.log2 : ℤ) - (b.log2 : ℤ) + 1) = ((a.log2 + 1 : ℕ) : ℤ) - (b.log2 : ℤ) by
            push_cast; ring,
          zpow_sub₀ two_ne_zero, zpow_natCast, zpow_natCast]
    rw [e2, div_lt_div_iff₀ hbQ (by positivity)]
    calc (a : ℚ) * 2 ^ (b.log2 : ℕ)
        < (2 : ℚ) ^ (a.log2 + 1 : ℕ) * 2 ^ (b.log2 : ℕ) := by
          exact mul_lt_mul_of_pos_right c2 hq3
      _ ≤ (2 : ℚ) ^ (a.log2 + 1 : ℕ) * b := by
          exact mul_le_mul_of_nonneg_left c3 (by positivity)

/-- `floorLog2` brackets every positive rational:
`2 ^ floorLog2 q ≤ q < 2 ^ (floorLog2 q + 1)`. -/
theorem floorLog2_spec (q : ℚ) (h : 0 < q) :
    (2 : ℚ) ^ floorLog2 q ≤ q ∧ q < 2 ^ (floorLog2 q + 1) := by
  have hnum : 0 < q.num := Rat.num_pos.mpr h
  have haz : ((q.num.toNat : ℤ)) = q.num := Int.toNat_of_nonneg (le_of_lt hnum)
  have ha0 : q.num.toNat ≠ 0 := by omega
  have hb0 : q.den ≠ 0 := q.den_nz
  have hq : (q.num.toNat : ℚ) / (q.den : ℚ) = q := by
    rw [show ((q.num.toNat : ℕ) : ℚ) = ((q.num : ℤ) : ℚ) by rw [← haz]; norm_cast]
    exact Rat.num_div_den q
  obtain ⟨hlow, hhigh⟩ := ratio_bracket q.num.toNat q.den ha0 hb0
  rw [hq] at hlow hhigh
  simp only [floorLog2]
  by_cases hc : (2 : ℚ) ^ ((q.num.toNat.log2 : ℤ) - (q.den.log2 : ℤ)) ≤ q
  · rw [if_pos hc]
    exact ⟨hc, hhigh⟩
  · rw [if_neg hc]
    constructor
    · exact le_of_lt hlow
    · rw [show (q.num.toNat.log2 : ℤ) - (q.den.log2 : ℤ) - 1 + 1
            = (q.num.toNat.log2 : ℤ) - (q.den.log2 : ℤ) by ring]
      exact lt_of_not_le hc

/-- `floorLog2` is the unique bracketing exponent. -/
theorem floorLog2_eq (q : ℚ) (k : ℤ) (h0 : 0 < q)
    (h1 : (2 : ℚ) ^ k ≤ q) (h2 : q < 2 ^ (k + 1)) : floorLog2 q = k := by
  obtain ⟨s1, s2⟩ := floorLog2_spec q h0
  by_contra hne
  rcases lt_or_gt_of_ne hne with hlt | hgt
  · have hmono : (2 : ℚ) ^ (floorLog2 q + 1) ≤ 2 ^ k :=
      zpow_le_zpow_right₀ one_le_two (by omega)
    linarith
  · have hmono : (2 : ℚ) ^ (k + 1) ≤ 2 ^ (floorLog2 q) :=
      zpow_le_zpow_right₀ one_le_two (by omega)
    linarith

/-- Evaluation of `roundF64pos` in the round-down case: when the scaled
mantissa has fractional part below one half, the result is the floor of
the mantissa times the scale. -/
theorem roundF64pos_eq_floor (q : ℚ) (k n : ℤ) (h0 : 0 < q)
    (h1 : (2 : ℚ) ^ k ≤ q) (h2 : q < 2 ^ (k + 1))
    (hn : ⌊q / 2 ^ (k - 52)⌋ = n)
    (hfrac : q / 2 ^ (k - 52) - (n : ℚ) < 1 / 2) :
    roundF64pos q = (n : ℚ) * 2 ^ (k - 52) := by
  simp only [roundF64pos]
  rw [floorLog2_eq q k h0 h1 h2, hn, if_pos hfrac]

/-- Positive integers below `2^53` are exactly representable: rounding is
the identity on them. -/
theorem roundF64pos_natCast (v : ℕ) (h0 : 0 < v) (h1 : v < 2 ^ 53) :
    roundF64pos (v : ℚ) = (v : ℚ) := by
  have hv0 : v ≠ 0 := by omega
  have hK1 : 2 ^ Nat.log2 v ≤ v := Nat.log2_self_le hv0
  have hK2 : v < 2 ^ (Nat.log2 v + 1) := Nat.lt_log2_self
  have hK52 : Nat.log2 v ≤ 52 := by
    by_contra hgt
    push_neg at hgt
    have : 2 ^ 53 ≤ 2 ^ Nat.log2 v := Nat.pow_le_pow_right (by omega) (by omega)
    omega
  have hpos : (0 : ℚ) < (v : ℚ) := by exact_mod_cast h0
  have hb1 : (2 : ℚ) ^ ((Nat.log2 v : ℕ) : ℤ) ≤ (v : ℚ) := by
    rw [zpow_natCast]
    exact_mod_cast hK1
  have hb2 : (v : ℚ) < 2 ^ (((Nat.log2 v : ℕ) : ℤ) + 1) := by
    rw [show (((Nat.log2 v : ℕ) : ℤ) + 1) = ((Nat.log2 v + 1 : ℕ) : ℤ) by push_cast; ring,
        zpow_natCast]
    exact_mod_cast hK2
  have hm : (v : ℚ) / 2 ^ (((Nat.log2 v : ℕ) : ℤ) - 52)
      = ((v * 2 ^ (52 - Nat.log2 v) : ℕ) : ℚ) := by
    rw [show (((Nat.log2 v : ℕ) : ℤ) - 52) = -(((52 - Nat.log2 v : ℕ) : ℕ) : ℤ) by omega,
        zpow_neg, div_eq_mul_inv, inv_inv, zpow_natCast]
    push_cast
    ring
  have hfl : ⌊(v : ℚ) / 2 ^ (((Nat.log2 v : ℕ) : ℤ) - 52)⌋
      = ((v * 2 ^ (52 - Nat.log2 v) : ℕ) : ℤ) := by
    rw [hm, Int.floor_natCast]
  have hfr : (v : ℚ) / 2 ^ (((Nat.log2 v : ℕ) : ℤ) - 52)
      - (((v * 2 ^ (52 - Nat.log2 v) : ℕ) : ℤ) : ℚ) < 1 / 2 := by
    rw [hm]
    push_cast
    norm_num
  rw [roundF64pos_eq_floor (v : ℚ) ((Nat.log2 v : ℕ) : ℤ) _ hpos hb1 hb2 hfl hfr]
  rw [show (((Nat.log2 v : ℕ) : ℤ) - 52) = -(((52 - Nat.log2 v : ℕ) : ℕ) : ℤ) by omega,
      zpow_neg, zpow_natCast]
  push_cast
  exact mul_inv_cancel_right₀ (by positivity) (v : ℚ)

/-- Powers of two of any magnitude are exactly representable. -/
theorem roundF64pos_pow2 (j : ℕ) :
    roundF64pos ((2 ^ j : ℕ) : ℚ) = ((2 ^ j : ℕ) : ℚ) := by
  have hcast : ((2 ^ j : ℕ) : ℚ) = (2 : ℚ) ^ ((j : ℕ) : ℤ) := by
    rw [zpow_natCast]
    push_cast
    ring
  have h0 : (0 : ℚ) < 2 ^ ((j : ℕ) : ℤ) := zpow_pos (by norm_num) _
  have hb2 : (2 : ℚ) ^ ((j : ℕ) : ℤ) < 2 ^ (((j : ℕ) : ℤ) + 1) := by
    calc (2 : ℚ) ^ ((j : ℕ) : ℤ) = 2 ^ ((j : ℕ) : ℤ) * 1 := by ring
      _ < 2 ^ ((j : ℕ) : ℤ) * 2 ^ (1 : ℤ) := by
          apply mul_lt_mul_of_pos_left _ h0
          norm_num
      _ = 2 ^ (((j : ℕ) : ℤ) + 1) := (zpow_add₀ two_ne_zero _ _).symm
  have hm : (2 : ℚ) ^ ((j : ℕ) : ℤ) / 2 ^ (((j : ℕ) : ℤ) - 52)
      = (((2 ^ 52 : ℕ) : ℤ) : ℚ) := by
    rw [← zpow_sub₀ two_ne_zero,
        show ((j : ℕ) : ℤ) - (((j : ℕ) : ℤ) - 52) = ((52 : ℕ) : ℤ) by ring, zpow_natCast]
    push_cast
    ring
  have hfl : ⌊(2 : ℚ) ^ ((j : ℕ) : ℤ) / 2 ^ (((j : ℕ) : ℤ) - 52)⌋ = ((2 ^ 52 : ℕ) : ℤ) := by
    rw [hm, Int.floor_intCast]
  have hfr : (2 : ℚ) ^ ((j : ℕ) : ℤ) / 2 ^ (((j : ℕ) : ℤ) - 52)
      - ((((2 ^ 52 : ℕ) : ℤ)) : ℚ) < 1 / 2 := by
    rw [hm]
    norm_num
  rw [hcast, roundF64pos_eq_floor _ ((j : ℕ) : ℤ) _ h0 (le_refl _) hb2 hfl hfr]
  rw [← hm]
  field_simp

/-- A positive rational at most `1 - 2^-53` rounds strictly below one:
the nearest representable value cannot reach `1.0`. -/
theorem roundF64pos_lt_one (q : ℚ) (h0 : 0 < q)
    (hq : q ≤ 1 - (2 : ℚ) ^ (-53 : ℤ)) : roundF64pos q < 1 := by
  obtain ⟨s1, s2⟩ := floorLog2_spec q h0
  have hp53 : (0 : ℚ) < (2 : ℚ) ^ (-53 : ℤ) := zpow_pos (by norm_num) _
  have hq1 : q < 1 := by linarith
  have hk : floorLog2 q + 1 ≤ 0 := by
    by_contra hc
    push_neg at hc
    have h1k : (2 : ℚ) ^ (0 : ℤ) ≤ 2 ^ (floorLog2 q) :=
      zpow_le_zpow_right₀ one_le_two (by omega)
    rw [zpow_zero] at h1k
    linarith
  simp only [roundF64pos]
  set k := floorLog2 q with hkdef
  set m : ℚ := q / 2 ^ (k - 52) with hmdef
  set n : ℤ := ⌊m⌋ with hndef
  have hzc : (2 : ℚ) ^ (53 : ℤ) = (2 : ℚ) ^ (53 : ℕ) := by
    rw [show (53 : ℤ) = ((53 : ℕ) : ℤ) by norm_num, zpow_natCast]
  have hepos : (0 : ℚ) < 2 ^ (k - 52) := zpow_pos (by norm_num) _
  have hm53 : m < 2 ^ (53 : ℤ) := by
    have hstep : m < 2 ^ (k + 1) / 2 ^ (k - 52) := by
      rw [hmdef]
      exact div_lt_div_of_pos_right s2 hepos
    calc m < 2 ^ (k + 1) / 2 ^ (k - 52) := hstep
      _ = 2 ^ (53 : ℤ) := by
          rw [← zpow_sub₀ two_ne_zero]
          congr 1
          ring
  have hn53 : n ≤ 2 ^ 53 - 1 := by
    have hlt : n < (2 ^ 53 : ℤ) := by
      have hcast : (((2 ^ 53 : ℤ)) : ℚ) = (2 : ℚ) ^ (53 : ℤ) := by
        rw [hzc]
        push_cast
        ring
      rw [hndef, Int.floor_lt, hcast]
      exact hm53
    omega
  have hr_le : (if m - (n : ℚ) < 1 / 2 then n
      else if 1 / 2 < m - (n : ℚ) then n + 1
      else if n % 2 = 0 then n else n + 1) ≤ n + 1 := by
    split_ifs <;> omega
  have hfinal : ∀ r : ℤ, r ≤ 2 ^ 53 - 1 → (r : ℚ) * 2 ^ (k - 52) < 1 := by
    intro r hr
    have hrQ : (r : ℚ) ≤ (2 : ℚ) ^ (53 : ℕ) - 1 := by exact_mod_cast hr
    have h53 : ((2 : ℚ) ^ (53 : ℕ) - 1) < 2 ^ (53 : ℤ) := by
      rw [hzc]
      norm_num
    have step1 : (r : ℚ) * 2 ^ (k - 52) ≤ ((2 : ℚ) ^ (53 : ℕ) - 1) * 2 ^ (k - 52) :=
      mul_le_mul_of_nonneg_right hrQ (le_of_lt hepos)
    have step2 : ((2 : ℚ) ^ (53 : ℕ) - 1) * 2 ^ (k - 52) < 2 ^ (53 : ℤ) * 2 ^ (k - 52) :=
      mul_lt_mul_of_pos_right h53 hepos
    have step3 : (2 : ℚ) ^ (53 : ℤ) * 2 ^ (k - 52) = 2 ^ (k + 1) := by
      rw [← zpow_add₀ two_ne_zero]
      congr 1
      ring
    have step4 : (2 : ℚ) ^ (k + 1) ≤ (1 : ℚ) := by
      have hmono := zpow_le_zpow_right₀ (one_le_two : (1 : ℚ) ≤ 2) hk
      rwa [zpow_zero] at hmono
    linarith
  have hfinal2 : k ≤ -2 → ∀ r : ℤ, r ≤ 2 ^ 53 → (r : ℚ) * 2 ^ (k - 52) < 1 := by
    intro hk2 r hr
    have hrQ : (r : ℚ) ≤ (2 : ℚ) ^ (53 : ℕ) := by exact_mod_cast hr
    have step1 : (r : ℚ) * 2 ^ (k - 52) ≤ (2 : ℚ) ^ (53 : ℕ) * 2 ^ (k - 52) :=
      mul_le_mul_of_nonneg_right hrQ (le_of_lt hepos)
    have step3 : (2 : ℚ) ^ (53 : ℕ) * 2 ^ (k - 52) = 2 ^ (k + 1) := by
      rw [← hzc, ← zpow_add₀ two_ne_zero]
      congr 1
      ring
    have step4 : (2 : ℚ) ^ (k + 1) ≤ 2 ^ (-1 : ℤ) :=
      zpow_le_zpow_right₀ one_le_two (by omega)
    have step5 : (2 : ℚ) ^ (-1 : ℤ) < 1 := by
      rw [zpow_neg, zpow_one]
      norm_num
    linarith
  by_cases hkm : k ≤ -2
  · exact hfinal2 hkm _ (by omega)
  · have hk1 : k = -1 := by omega
    by_cases hn_top : n = 2 ^ 53 - 1
    · have hp : (0 : ℚ) < (2 : ℚ) ^ (53 : ℤ) := zpow_pos (by norm_num) _
      have hme : m = q * 2 ^ (53 : ℤ) := by
        rw [hmdef, hk1, show (-1 : ℤ) - 52 = -(53 : ℤ) by ring, zpow_neg,
            div_eq_mul_inv, inv_inv]
      have hcancel : (2 : ℚ) ^ (-53 : ℤ) * 2 ^ (53 : ℤ) = 1 := by
        rw [← zpow_add₀ two_ne_zero]
        norm_num
      have hm_le : m ≤ (2 : ℚ) ^ (53 : ℕ) - 1 := by
        have hmul : q * 2 ^ (53 : ℤ) ≤ (1 - 2 ^ (-53 : ℤ)) * 2 ^ (53 : ℤ) :=
          mul_le_mul_of_nonneg_right hq (le_of_lt hp)
        have hexp : (1 - (2 : ℚ) ^ (-53 : ℤ)) * 2 ^ (53 : ℤ) = 2 ^ (53 : ℤ) - 1 := by
          rw [sub_mul, hcancel, one_mul]
        rw [hexp] at hmul
        rw [hme, ← hzc]
        exact hmul
      have hnQ : (n : ℚ) = (2 : ℚ) ^ (53 : ℕ) - 1 := by
        rw [hn_top]
        push_cast
        norm_num
      have hfrac : m - (n : ℚ) < 1 / 2 := by
        rw [hnQ]
        linarith
      rw [if_pos hfrac]
      exact hfinal n (by omega)
    · exact hfinal _ (by omega)

/-- The quotient of a smaller by a larger positive integer, both below
`2^53`, is at most one ulp below one. -/
theorem ratio_le_one_sub (u b : ℕ) (hu : 0 < u) (hub : u < b) (hb : b < 2 ^ 53) :
    (u : ℚ) / b ≤ 1 - (2 : ℚ) ^ (-53 : ℤ) := by
  have hbQ : (0 : ℚ) < (b : ℚ) := by
    have hb' : 0 < b := by omega
    exact_mod_cast hb'
  rw [div_le_iff₀ hbQ]
  have hu_le : (u : ℚ) + 1 ≤ (b : ℚ) := by exact_mod_cast hub
  have hc : (b : ℚ) * 2 ^ (-53 : ℤ) ≤ 1 := by
    have hble : (b : ℚ) ≤ 2 ^ (53 : ℤ) := by
      rw [show (53 : ℤ) = ((53 : ℕ) : ℤ) by norm_num, zpow_natCast]
      exact_mod_cast le_of_lt hb
    have hp : (0 : ℚ) < 2 ^ (-53 : ℤ) := zpow_pos (by norm_num) _
    calc (b : ℚ) * 2 ^ (-53 : ℤ) ≤ 2 ^ (53 : ℤ) * 2 ^ (-53 : ℤ) :=
          mul_le_mul_of_nonneg_right hble (le_of_lt hp)
      _ = 1 := by
          rw [← zpow_add₀ two_ne_zero]
          norm_num
  have expand : (1 - (2 : ℚ) ^ (-53 : ℤ)) * (b : ℚ) = b - b * 2 ^ (-53 : ℤ) := by ring
  rw [expand]
  linarith

/-- C1 amended: eligibility is exactly `debt > 0` and `debt > threshold`;
zero debt yields no opportunity regardless of the threshold; and whenever
`debt > threshold > 0` with the debt below `2^53` (the range on which the
`u128 as f64` casts are exact), the computed `f64` health ratio is
strictly below `1.0` and the record is eligible.  Above that range the
casts can round debt and threshold to the same double (see the
counterexample), so the restriction is required. -/
theorem claim1_eligibility (ob : KaminoObligation) :
    (ob.is_liquidatable = true ↔
      0 < ob.borrowed_assets_market_value_sf ∧
        ob.unhealthy_borrow_value_sf < ob.borrowed_assets_market_value_sf)
    ∧ (ob.borrowed_assets_market_value_sf = 0 →
        ∀ addr slip, scanKaminoEval addr ob slip = none)
    ∧ (0 < ob.unhealthy_borrow_value_sf →
        ob.unhealthy_borrow_value_sf < ob.borrowed_assets_market_value_sf →
        ob.borrowed_assets_market_value_sf < 2 ^ 53 →
        ob.healthRatioF64 < 1 ∧ ob.is_liquidatable = true) := by
  refine ⟨?_, ?_, ?_⟩
  · unfold KaminoObligation.is_liquidatable
    split
    · rename_i h0
      simp [h0]
    · rename_i h0
      simp
      omega
  · intro h0 addr slip
    unfold scanKaminoEval KaminoObligation.is_liquidatable
    simp [h0]
  · intro hu hlt hb53
    have hb0 : ob.borrowed_assets_market_value_sf ≠ 0 := by omega
    have hu0 : ob.unhealthy_borrow_value_sf ≠ 0 := by omega
    constructor
    · unfold KaminoObligation.healthRatioF64
      rw [if_neg hb0, if_neg hu0]
      unfold u128ToF64
      rw [if_neg hu0, if_neg hb0]
      rw [roundF64pos_natCast ob.unhealthy_borrow_value_sf (by omega) (by omega),
          roundF64pos_natCast ob.borrowed_assets_market_value_sf (by omega) hb53]
      apply roundF64pos_lt_one
      · apply div_pos
        · exact_mod_cast hu
        · have hbpos : 0 < ob.borrowed_assets_market_value_sf := by omega
          exact_mod_cast hbpos
      · exact ratio_le_one_sub _ _ hu hlt hb53
    · unfold KaminoObligation.is_liquidatable
      rw [if_neg hb0]
      simpa using hlt

/-- C1 counterexample: the obligation with scaled debt `2^100 + 2^40` and
threshold `2^100` has `debt > threshold > 0` and is eligible, yet both
`u128` values cast to the same `f64` (`2^100`), so the program's health
ratio is exactly `1.0`, not `< 1.0`. -/
theorem claim1_counterexample :
    hugeObligation.is_liquidatable = true
    ∧ 0 < hugeObligation.unhealthy_borrow_value_sf
    ∧ hugeObligation.unhealthy_borrow_value_sf
        < hugeObligation.borrowed_assets_market_value_sf
    ∧ hugeObligation.healthRatioF64 = 1
    ∧ ¬ hugeObligation.healthRatioF64 < 1 := by
  have hb0 : (2 ^ 100 + 2 ^ 40 : ℕ) ≠ 0 := by positivity
  have hu0 : (2 ^ 100 : ℕ) ≠ 0 := by positivity
  have hround : roundF64pos ((2 ^ 100 + 2 ^ 40 : ℕ) : ℚ) = ((2 ^ 100 : ℕ) : ℚ) := by
    have h0 : (0 : ℚ) < ((2 ^ 100 + 2 ^ 40 : ℕ) : ℚ) := by positivity
    have hb1 : (2 : ℚ) ^ (100 : ℤ) ≤ ((2 ^ 100 + 2 ^ 40 : ℕ) : ℚ) := by
      rw [show (100 : ℤ) = ((100 : ℕ) : ℤ) by norm_num, zpow_natCast]
      push_cast
      norm_num
    have hb2 : ((2 ^ 100 + 2 ^ 40 : ℕ) : ℚ) < 2 ^ ((100 : ℤ) + 1) := by
      rw [show (100 : ℤ) + 1 = ((101 : ℕ) : ℤ) by norm_num, zpow_natCast]
      push_cast
      norm_num
    have he : (2 : ℚ) ^ ((100 : ℤ) - 52) = ((2 ^ 48 : ℕ) : ℚ) := by
      rw [show (100 : ℤ) - 52 = ((48 : ℕ) : ℤ) by norm_num, zpow_natCast]
      push_cast
      ring
    have hd : (0 : ℚ) < ((2 ^ 48 : ℕ) : ℚ) := by positivity
    have hfl : ⌊((2 ^ 100 + 2 ^ 40 : ℕ) : ℚ) / 2 ^ ((100 : ℤ) - 52)⌋
        = ((2 ^ 52 : ℕ) : ℤ) := by
      rw [he, Int.floor_eq_iff]
      constructor
      · rw [le_div_iff₀ hd]
        push_cast
        norm_num
      · rw [div_lt_iff₀ hd]
        push_cast
        norm_num
    have hfr : ((2 ^ 100 + 2 ^ 40 : ℕ) : ℚ) / 2 ^ ((100 : ℤ) - 52)
        - ((((2 ^ 52 : ℕ) : ℤ)) : ℚ) < 1 / 2 := by
      rw [he, sub_lt_iff_lt_add, div_lt_iff₀ hd]
      push_cast
      norm_num
    rw [roundF64pos_eq_floor _ (100 : ℤ) _ h0 hb1 hb2 hfl hfr, he]
    push_cast
    norm_num
  have heq : hugeObligation.healthRatioF64 = 1 := by
    unfold KaminoObligation.healthRatioF64 hugeObligation
    rw [if_neg hb0, if_neg hu0]
    unfold u128ToF64
    rw [if_neg hu0, if_neg hb0]
    rw [roundF64pos_pow2 100, hround]
    rw [div_self (by positivity : ((2 ^ 100 : ℕ) : ℚ) ≠ 0)]
    have h1 : roundF64pos ((1 : ℕ) : ℚ) = ((1 : ℕ) : ℚ) :=
      roundF64pos_natCast 1 (by norm_num) (by norm_num)
    simpa using h1
  refine ⟨by decide, by decide, by decide, heq, ?_⟩
  rw [heq]
  exact lt_irrefl 1

/-- Witness for C1 at a concrete obligation with debt 2 (within the exact
`f64` range) above threshold 1. -/
theorem claim1_eligibility_witness :
    sampleObligation.is_liquidatable = true ∧ sampleObligation.healthRatioF64 < 1 :=
  ⟨(claim1_eligibility sampleObligation).1.mpr (by decide),
   ((claim1_eligibility sampleObligation).2.2 (by decide) (by decide) (by decide)).1⟩

/-- C2 counterexample: at scaled debt `2e12` the code's base-unit debt is
`2e12 / 1e12 = 2`, so the 50% close factor gives `max_repayable_debt = 1`
(not `1_000_000`), and the estimated profit at bonus 500 bps, gas 5000,
slippage 300 bps is `-5000`, not strictly positive. -/
theorem claim2_counterexample :
    kaminoTotalDebt scenarioAObligation / 2 = 1
    ∧ estimate_profit (kaminoTotalDebt scenarioAObligation / 2) 500 5000 300 = -5000
    ∧ ¬(kaminoTotalDebt scenarioAObligation / 2 = 1000000 ∧
          0 < estimate_profit (kaminoTotalDebt scenarioAObligation / 2) 500 5000 300) := by
  refine ⟨by decide, by decide, ?_⟩
  decide

/-- C2 amended: the scenario-A position is eligible, but the divisor
`1e12` makes its base-unit debt 2, `max_repayable_debt = 1`, the estimated
net profit `-5000`, and the evaluator therefore emits no opportunity. -/
theorem claim2_amended :
    scenarioAObligation.is_liquidatable = true
    ∧ kaminoTotalDebt scenarioAObligation / 2 = 1
    ∧ estimate_profit 1 500 5000 300 = -5000
    ∧ scanKaminoEval zero32 scenarioAObligation 3 = none := by
  refine ⟨by decide, by decide, by decide, ?_⟩
  decide

/-- C4 counterexample: at `liab_amount = 2^63` (a valid `u64`), bonus 1
bps, zero gas and slippage, the `as i64` cast reinterprets the amount as
`-2^63`, so the code returns `-922337203685477` while the specification
formula gives `+922337203685477`. -/
theorem claim4_counterexample :
    estimate_profit (2 ^ 63) 1 0 0 = -922337203685477
    ∧ ((2 ^ 63 * 1 / 10000 : ℕ) : ℤ) - (0 : ℤ) - ((2 ^ 63 * 0 / 10000 : ℕ) : ℤ)
        = 922337203685477
    ∧ estimate_profit (2 ^ 63) 1 0 0 ≠
        ((2 ^ 63 * 1 / 10000 : ℕ) : ℤ) - (0 : ℤ) - ((2 ^ 63 * 0 / 10000 : ℕ) : ℤ) := by
  refine ⟨by decide, by decide, by decide⟩

/-- C4 amended: on every input on which the `i64` computation does not
wrap (amount below `2^63`, both basis-point products below `2^63`, and gas
plus slippage cost below `2^63`), the estimated net profit equals exactly
`liab * bonus / 10000 - gas - liab * slippage / 10000` with truncating
integer division. -/
theorem claim4_formula (l b g s : ℕ) (hl : l < 2 ^ 63) (hb : b < 2 ^ 16)
    (hs : s < 2 ^ 16) (hlb : l * b < 2 ^ 63) (hls : l * s < 2 ^ 63)
    (hgs : g + l * s / 10000 < 2 ^ 63) :
    estimate_profit l b g s =
      ((l * b / 10000 : ℕ) : ℤ) - (g : ℤ) - ((l * s / 10000 : ℕ) : ℤ) :=
  estimate_profit_eval l b g s hl hb hs hlb hls hgs

/-- Witness for C4 at a concrete non-wrapping input. -/
theorem claim4_formula_witness :
    estimate_profit 1000000 500 5000 300 =
      ((1000000 * 500 / 10000 : ℕ) : ℤ) - (5000 : ℤ) - ((1000000 * 300 / 10000 : ℕ) : ℤ) :=
  claim4_formula 1000000 500 5000 300 (by decide) (by decide) (by decide)
    (by decide) (by decide) (by decide)

/-- C9 counterexample: the profit estimate is not monotone in the bonus on
the full `u64` domain — at `liab_amount = 2^63` raising the bonus from 0
to 1 bps drops the result from 0 to `-922337203685477`, because the
`as i64` cast reinterprets the amount as negative. -/
theorem claim9_counterexample :
    ¬ estimate_profit (2 ^ 63) 0 0 0 ≤ estimate_profit (2 ^ 63) 1 0 0 := by
  decide

/-- C9 amended: on the non-wrapping domain, the profit estimate is
monotonically increasing in the bonus and monotonically decreasing in the
gas estimate and in the slippage, other arguments held fixed. -/
theorem claim9_monotone :
    (∀ l b b' g s, l < 2 ^ 63 → b' < 2 ^ 16 → s < 2 ^ 16 → l * b' < 2 ^ 63 →
      l * s < 2 ^ 63 → g + l * s / 10000 < 2 ^ 63 → b ≤ b' →
      estimate_profit l b g s ≤ estimate_profit l b' g s)
    ∧ (∀ l b g g' s, l < 2 ^ 63 → b < 2 ^ 16 → s < 2 ^ 16 → l * b < 2 ^ 63 →
      l * s < 2 ^ 63 → g' + l * s / 10000 < 2 ^ 63 → g ≤ g' →
      estimate_profit l b g' s ≤ estimate_profit l b g s)
    ∧ (∀ l b g s s', l < 2 ^ 63 → b < 2 ^ 16 → s' < 2 ^ 16 → l * b < 2 ^ 63 →
      l * s' < 2 ^ 63 → g + l * s' / 10000 < 2 ^ 63 → s ≤ s' →
      estimate_profit l b g s' ≤ estimate_profit l b g s) := by
  refine ⟨?_, ?_, ?_⟩
  · intro l b b' g s hl hb' hs hlb' hls hgs hbb
    have hb : b < 2 ^ 16 := by omega
    have hlb : l * b < 2 ^ 63 := lt_of_le_of_lt (Nat.mul_le_mul_left l hbb) hlb'
    rw [estimate_profit_eval l b g s hl hb hs hlb hls hgs,
        estimate_profit_eval l b' g s hl hb' hs hlb' hls hgs]
    have hmono : l * b / 10000 ≤ l * b' / 10000 :=
      Nat.div_le_div_right (Nat.mul_le_mul_left l hbb)
    have : ((l * b / 10000 : ℕ) : ℤ) ≤ ((l * b' / 10000 : ℕ) : ℤ) := by exact_mod_cast hmono
    omega
  · intro l b g g' s hl hb hs hlb hls hgs' hgg
    have hgs : g + l * s / 10000 < 2 ^ 63 := by omega
    rw [estimate_profit_eval l b g s hl hb hs hlb hls hgs,
        estimate_profit_eval l b g' s hl hb hs hlb hls hgs']
    have : (g : ℤ) ≤ (g' : ℤ) := by exact_mod_cast hgg
    omega
  · intro l b g s s' hl hb hs' hlb hls' hgs' hss
    have hs : s < 2 ^ 16 := by omega
    have hls : l * s < 2 ^ 63 := lt_of_le_of_lt (Nat.mul_le_mul_left l hss) hls'
    have hmono : l * s / 10000 ≤ l * s' / 10000 :=
      Nat.div_le_div_right (Nat.mul_le_mul_left l hss)
    have hgs : g + l * s / 10000 < 2 ^ 63 := by omega
    rw [estimate_profit_eval l b g s hl hb hs hlb hls hgs,
        estimate_profit_eval l b g s' hl hb hs' hlb hls' hgs']
    have : ((l * s / 10000 : ℕ) : ℤ) ≤ ((l * s' / 10000 : ℕ) : ℤ) := by exact_mod_cast hmono
    omega

/-- Witness for C9: all three monotonicity directions at concrete
non-wrapping inputs. -/
theorem claim9_monotone_witness :
    estimate_profit 1000000 400 5000 300 ≤ estimate_profit 1000000 500 5000 300
    ∧ estimate_profit 1000000 500 6000 300 ≤ estimate_profit 1000000 500 5000 300
    ∧ estimate_profit 1000000 500 5000 400 ≤ estimate_profit 1000000 500 5000 300 :=
  ⟨claim9_monotone.1 1000000 400 500 5000 300 (by decide) (by decide) (by decide)
      (by decide) (by decide) (by decide) (by decide),
   claim9_monotone.2.1 1000000 500 5000 6000 300 (by decide) (by decide) (by decide)
      (by decide) (by decide) (by decide) (by decide),
   claim9_monotone.2.2 1000000 500 5000 300 400 (by decide) (by decide) (by decide)
      (by decide) (by decide) (by decide) (by decide)⟩

/-- C8: the Kamino obligation decoder succeeds exactly on buffers of at
least the 500-byte minimum size — success depends only on the buffer
length, so in particular the content of the leading 8-byte discriminator
(only logged on mismatch) can never cause a decode failure, and no
in-bounds read is reached on undersized buffers. -/
theorem claim8_decoder_size (data : List ℕ) :
    (KaminoObligation.from_account_data data).isSome = true ↔ 500 ≤ data.length := by
  by_cases h : data.length < 500
  · unfold KaminoObligation.from_account_data
    rw [if_pos h]
    simp only [Option.isSome_none, Bool.false_eq_true, false_iff]
    omega
  · unfold KaminoObligation.from_account_data
    rw [if_neg h]
    unfold sliceN
    rw [if_pos (by omega), if_pos (by omega), if_pos (by omega), if_pos (by omega),
        if_pos (by omega), if_pos (by omega), if_pos (by omega), if_pos (by omega)]
    exact ⟨fun _ => by omega, fun _ => rfl⟩

/-- Witness for C8: a 500-byte buffer whose discriminator does not match
the Kamino constant still decodes, and a 499-byte buffer does not. -/
theorem claim8_decoder_size_witness :
    (KaminoObligation.from_account_data (List.replicate 500 1)).isSome = true
    ∧ ¬ (KaminoObligation.from_account_data (List.replicate 499 1)).isSome = true := by
  constructor
  · exact (claim8_decoder_size (List.replicate 500 1)).mpr
      (by simp only [List.length_replicate]; omega)
  · intro hsome
    have h := (claim8_decoder_size (List.replicate 499 1)).mp hsome
    rw [List.length_replicate] at h
    omega

/-- C5: the sequence assembled by the Kamino liquidation path is
`[flash_borrow, liquidate, flash_repay]`; the repay payload is the 8-byte
repay discriminator, the 8-byte little-endian amount, then the borrow-index
byte; and that byte equals the zero-based position of the flash-borrow
instruction (the unique one whose payload starts with the borrow
discriminator) in the emitted sequence. -/
theorem claim5_borrow_index (lm lma tp sv ra ca rls wls wcs wfr lb lmint ab amint acc kp
    flash_amount liab_amount : ℕ) :
    (executeKaminoInstructions lm lma tp sv ra ca rls wls wcs wfr
        lb lmint ab amint acc kp flash_amount liab_amount).findIdx
      (fun ix => ix.data.take 8 == FLASH_BORROW_DISCRIMINATOR) = 0
    ∧ ((executeKaminoInstructions lm lma tp sv ra ca rls wls wcs wfr
          lb lmint ab amint acc kp flash_amount liab_amount).getD 2 dummyInstruction).data.drop 16
        = [(executeKaminoInstructions lm lma tp sv ra ca rls wls wcs wfr
              lb lmint ab amint acc kp flash_amount liab_amount).findIdx
            (fun ix => ix.data.take 8 == FLASH_BORROW_DISCRIMINATOR)]
    ∧ ((executeKaminoInstructions lm lma tp sv ra ca rls wls wcs wfr
          lb lmint ab amint acc kp flash_amount liab_amount).getD 2 dummyInstruction).data.take 8
        = FLASH_REPAY_DISCRIMINATOR
    ∧ (executeKaminoInstructions lm lma tp sv ra ca rls wls wcs wfr
        lb lmint ab amint acc kp flash_amount liab_amount).length = 3 := by
  exact ⟨rfl, rfl, rfl, rfl⟩

/-- C6: trying to execute while the `EXECUTING` flag is set fails at once
with the busy error and leaves the flag set (no blocking, no queueing,
guard unchanged); with the flag clear, any inner outcome — error or
result — is returned with the flag released, so a subsequent acquisition
succeeds. -/
theorem claim6_exclusive_guard (internal internal' : Except String LiquidationResult) :
    Liquidator.execute true internal
        = (Except.error "Liquidation already in progress", true)
    ∧ Liquidator.execute false internal = (internal, false)
    ∧ (Liquidator.execute false internal).2 = false
    ∧ Liquidator.execute (Liquidator.execute false internal).2 internal'
        = (internal', false) := by
  refine ⟨rfl, rfl, rfl, rfl⟩

/-- C7: under the default configuration `dry_run` is true, and executing
any opportunity under it yields the synthetic confirmed result: success,
no transaction signature, profit equal to the opportunity's estimated
profit, and no simulate/submit RPC call. -/
theorem claim7_dry_run (opp : LiquidationOpportunity)
    (real : LiquidationResult × List RpcCall) :
    BotConfig.defaultConfig.dry_run = true
    ∧ Liquidator.execute_internal BotConfig.defaultConfig.dry_run opp real
        = ({ success := true, signature := none,
             profit_lamports := opp.estimated_profit_lamports, error := none }, []) := by
  exact ⟨rfl, rfl⟩

/-- The running-best fold tracks exactly the maximum of the evaluated
surpluses (and the initial value). -/
theorem bestFold_fst (f : ℕ × ℕ → ℤ) (l : List (ℕ × ℕ)) :
    ∀ (b : ℤ) (p : Option (ℕ × ℕ)),
      (l.foldl (fun st ij => if st.1 < f ij then (f ij, some ij) else st) (b, p)).1
        = l.foldl (fun acc ij => max acc (f ij)) b := by
  induction l with
  | nil => intro b p; rfl
  | cons x xs ih =>
    intro b p
    simp only [List.foldl_cons]
    by_cases hx : b < f x
    · rw [if_pos hx, max_eq_right (le_of_lt hx)]
      exact ih (f x) (some x)
    · rw [if_neg hx, max_eq_left (le_of_not_lt hx)]
      exact ih b p

/-- Once the running-best path is set, it stays set. -/
theorem bestFold_snd_some (f : ℕ × ℕ → ℤ) (l : List (ℕ × ℕ)) :
    ∀ (b : ℤ) (p : Option (ℕ × ℕ)), p.isSome = true →
      ((l.foldl (fun st ij => if st.1 < f ij then (f ij, some ij) else st) (b, p)).2).isSome
        = true := by
  induction l with
  | nil => intro b p hp; exact hp
  | cons x xs ih =>
    intro b p hp
    simp only [List.foldl_cons]
    by_cases hx : b < f x
    · rw [if_pos hx]
      exact ih (f x) (some x) rfl
    · rw [if_neg hx]
      exact ih b p hp

/-- If the fold's best strictly improved on the initial value, some pair
was recorded. -/
theorem bestFold_snd_of_lt (f : ℕ × ℕ → ℤ) (l : List (ℕ × ℕ)) :
    ∀ (b : ℤ) (p : Option (ℕ × ℕ)),
      b < (l.foldl (fun st ij => if st.1 < f ij then (f ij, some ij) else st) (b, p)).1 →
      ((l.foldl (fun st ij => if st.1 < f ij then (f ij, some ij) else st) (b, p)).2).isSome
        = true := by
  induction l with
  | nil => intro b p hb; exact absurd hb (lt_irrefl b)
  | cons x xs ih =>
    intro b p hb
    simp only [List.foldl_cons] at hb ⊢
    by_cases hx : b < f x
    · rw [if_pos hx]
      exact bestFold_snd_some f xs (f x) (some x) rfl
    · rw [if_neg hx] at hb ⊢
      exact ih b p hb

/-- The max-fold never drops below its initial value. -/
theorem le_maxFold (f : ℕ × ℕ → ℤ) (l : List (ℕ × ℕ)) :
    ∀ b : ℤ, b ≤ l.foldl (fun acc ij => max acc (f ij)) b := by
  induction l with
  | nil => intro b; exact le_refl b
  | cons x xs ih =>
    intro b
    simp only [List.foldl_cons]
    exact le_trans (le_max_left b (f x)) (ih (max b (f x)))

/-- Two max-folds agree when the evaluators agree on the list. -/
theorem maxFold_congr (l : List (ℕ × ℕ)) (f g : ℕ × ℕ → ℤ)
    (h : ∀ x ∈ l, f x = g x) :
    ∀ b : ℤ, l.foldl (fun acc ij => max acc (f ij)) b
      = l.foldl (fun acc ij => max acc (g ij)) b := by
  induction l with
  | nil => intro b; rfl
  | cons x xs ih =>
    intro b
    simp only [List.foldl_cons]
    rw [h x (List.mem_cons_self x xs)]
    exact ih (fun y hy => h y (List.mem_cons_of_mem x hy)) (max b (g x))

/-- A constant-product swap output is strictly below the outgoing reserve,
hence below `2^63` when both reserves are. -/
theorem get_amount_out_lt (p : LiquidityPool) (x : ℕ) (b : Bool)
    (ha : p.reserve_a < 2 ^ 63) (hb : p.reserve_b < 2 ^ 63) :
    p.get_amount_out x b < 2 ^ 63 := by
  unfold LiquidityPool.get_amount_out
  by_cases hz : (if b = true then p.reserve_a else p.reserve_b) = 0
      ∨ (if b = true then p.reserve_b else p.reserve_a) = 0
  · rw [if_pos hz]
    omega
  · rw [if_neg hz]
    push_neg at hz
    obtain ⟨hin, hout⟩ := hz
    set ri := if b = true then p.reserve_a else p.reserve_b with hridef
    set ro := if b = true then p.reserve_b else p.reserve_a with hrodef
    have hro63 : ro < 2 ^ 63 := by
      rw [hrodef]
      split <;> assumption
    set aiwf := x * (10000 - p.fee_bps) / 10000 with haiwf
    have hdiv : aiwf * ro / (ri + aiwf) < ro := by
      rw [Nat.div_lt_iff_lt_mul (by omega)]
      have hpos : 0 < ro * ri := Nat.mul_pos (by omega) (by omega)
      calc aiwf * ro < aiwf * ro + ro * ri := by omega
        _ = ro * (ri + aiwf) := by ring
    calc aiwf * ro / (ri + aiwf) % 2 ^ 64 ≤ aiwf * ro / (ri + aiwf) := Nat.mod_le _ _
      _ < ro := hdiv
      _ < 2 ^ 63 := hro63

/-- Pool lookup with the scanner's default stays within the reserve
bounds. -/
theorem getD_pool_bounds (pools : List LiquidityPool)
    (hres : ∀ p ∈ pools, p.reserve_a < 2 ^ 63 ∧ p.reserve_b < 2 ^ 63) (i : ℕ) :
    (pools.getD i dummyPool).reserve_a < 2 ^ 63
      ∧ (pools.getD i dummyPool).reserve_b < 2 ^ 63 := by
  by_cases h : i < pools.length
  · rw [List.getD_eq_getElem pools dummyPool h]
    exact hres pools[i] (List.getElem_mem h)
  · rw [List.getD_eq_default pools dummyPool (by omega)]
    constructor <;> decide

/-- Under the reserve bounds, the loop's `as i64` surplus coincides with
the exact integer surplus `A' - A`. -/
theorem surplusI64_eq (pools : List LiquidityPool) (amount : ℕ) (ij : ℕ × ℕ)
    (hres : ∀ p ∈ pools, p.reserve_a < 2 ^ 63 ∧ p.reserve_b < 2 ^ 63)
    (hamt : amount < 2 ^ 63) :
    surplusI64 pools amount ij = (roundtripOut pools amount ij : ℤ) - (amount : ℤ) := by
  have hb := getD_pool_bounds pools hres ij.2
  have hout : roundtripOut pools amount ij < 2 ^ 63 :=
    get_amount_out_lt (pools.getD ij.2 dummyPool) _ false hb.1 hb.2
  unfold surplusI64
  rw [i64ofU64_small amount hamt, i64ofU64_small _ hout]

/-- The loop best equals the specification-shaped best surplus under the
bounds. -/
theorem arbFold_fst_eq (pools : List LiquidityPool) (amount : ℕ)
    (hres : ∀ p ∈ pools, p.reserve_a < 2 ^ 63 ∧ p.reserve_b < 2 ^ 63)
    (hamt : amount < 2 ^ 63) :
    (arbFold pools amount).1 = bestRoundtripSurplus pools amount := by
  unfold arbFold bestRoundtripSurplus
  rw [List.foldl_map, bestFold_fst (surplusI64 pools amount) (crossPairs pools.length) 0 none]
  exact maxFold_congr (crossPairs pools.length) (surplusI64 pools amount)
    (fun ij => (roundtripOut pools amount ij : ℤ) - (amount : ℤ))
    (fun ij _ => surplusI64_eq pools amount ij hres hamt) 0

/-- C3 amended: for the evaluated pool list (at least two pools, `u64`
reserves and amount below `2^63`), `find_cross_dex_arb` emits an
opportunity iff the best round-trip surplus `A' - A` strictly exceeds the
flash-loan fee `A * 9 / 10000`, and the emitted expected profit is exactly
`A' - A - flash_fee` — no gas term is subtracted on this path. -/
theorem claim3_no_gas_term (pools : List LiquidityPool) (token_a token_b amount : ℕ)
    (hlen : 2 ≤ pools.length)
    (hres : ∀ p ∈ pools, p.reserve_a < 2 ^ 63 ∧ p.reserve_b < 2 ^ 63)
    (hamt : amount < 2 ^ 63) :
    ((find_cross_dex_arb pools token_a token_b amount).isSome = true ↔
      ((amount * 9 / 10000 : ℕ) : ℤ) < bestRoundtripSurplus pools amount)
    ∧ ∀ opp, find_cross_dex_arb pools token_a token_b amount = some opp →
        (opp.expected_profit : ℤ)
            = bestRoundtripSurplus pools amount - ((amount * 9 / 10000 : ℕ) : ℤ)
        ∧ opp.flash_loan_fee = amount * 9 / 10000
        ∧ opp.amount_in = amount := by
  have hBeq := arbFold_fst_eq pools amount hres hamt
  simp only [find_cross_dex_arb]
  rw [if_neg (by omega : ¬ pools.length < 2)]
  by_cases hpos : (arbFold pools amount).1 ≤ 0
  · rw [if_pos hpos]
    have hnot : ¬ ((amount * 9 / 10000 : ℕ) : ℤ) < bestRoundtripSurplus pools amount := by
      rw [← hBeq]
      have : (0 : ℤ) ≤ ((amount * 9 / 10000 : ℕ) : ℤ) := Int.ofNat_nonneg _
      omega
    refine ⟨⟨fun hfalse => absurd hfalse (by simp), fun hlt => absurd hlt hnot⟩, ?_⟩
    intro opp hopp
    exact absurd hopp (by simp)
  · rw [if_neg hpos]
    push_neg at hpos
    have hsome : ((arbFold pools amount).2).isSome = true := by
      unfold arbFold at hpos ⊢
      exact bestFold_snd_of_lt (surplusI64 pools amount) (crossPairs pools.length) 0 none hpos
    obtain ⟨pair, hpair⟩ := Option.isSome_iff_exists.mp hsome
    obtain ⟨bi, si⟩ := pair
    rw [hpair]
    dsimp only
    by_cases hfeeB : (arbFold pools amount).1.toNat ≤ amount * 9 / 10000
    · rw [if_pos hfeeB]
      have hle : (arbFold pools amount).1 ≤ ((amount * 9 / 10000 : ℕ) : ℤ) :=
        Int.toNat_le.mp hfeeB
      have hnot : ¬ ((amount * 9 / 10000 : ℕ) : ℤ) < bestRoundtripSurplus pools amount := by
        omega
      refine ⟨⟨fun hfalse => absurd hfalse (by simp), fun hlt => absurd hlt hnot⟩, ?_⟩
      intro opp hopp
      exact absurd hopp (by simp)
    · rw [if_neg hfeeB]
      push_neg at hfeeB
      have htn : ((arbFold pools amount).1.toNat : ℤ) = (arbFold pools amount).1 :=
        Int.toNat_of_nonneg (le_of_lt hpos)
      have hlt : ((amount * 9 / 10000 : ℕ) : ℤ) < bestRoundtripSurplus pools amount := by
        rw [← hBeq, ← htn]
        exact_mod_cast hfeeB
      refine ⟨⟨fun _ => hlt, fun _ => rfl⟩, ?_⟩
      intro opp hopp
      have hopp' := (Option.some.injEq _ _).mp hopp.symm
      rw [hopp']
      dsimp only
      refine ⟨?_, rfl, rfl⟩
      have hsub : (((arbFold pools amount).1.toNat - amount * 9 / 10000 : ℕ) : ℤ)
          = ((arbFold pools amount).1.toNat : ℤ) - ((amount * 9 / 10000 : ℕ) : ℤ) := by
        have := le_of_lt hfeeB
        push_cast [Nat.cast_sub this]
        ring
      rw [hsub, htn, hBeq]

/-- Witness for C3's amended statement at the concrete two-pool market. -/
theorem claim3_no_gas_term_witness :
    (find_cross_dex_arb cexPools 1 2 1000).isSome = true ↔
      ((1000 * 9 / 10000 : ℕ) : ℤ) < bestRoundtripSurplus cexPools 1000 :=
  (claim3_no_gas_term cexPools 1 2 1000 (by decide) (by decide) (by decide)).1

/-- C3 counterexample: on the concrete two-pool market with input 1000 the
code emits an opportunity whose `expected_profit` is 3 = `A' - A - fee`
with fee 0, although the claimed net `A' - A - fee - gas` is negative for
the repository's fixed gas estimate 5000 — so the emitted profit does not
include a gas term and emission is not gated on the gas-inclusive value
being positive. -/
theorem claim3_counterexample :
    (find_cross_dex_arb cexPools 1 2 1000).map
        (fun o => (o.expected_profit, o.flash_loan_fee, o.amount_in)) = some (3, 0, 1000)
    ∧ bestRoundtripSurplus cexPools 1000 = 3
    ∧ ¬ (0 : ℤ) < 3 - 0 - 5000
    ∧ (3 : ℤ) ≠ 3 - 0 - 5000 := by
  refine ⟨by decide, by decide, by decide, by decide⟩

/-- Invariance of the decimal conversion under the upper 8 bytes. -/
theorem to_decimal_congr (v w : WrappedI80F48) (h : v.value.take 8 = w.value.take 8) :
    v.to_decimal = w.to_decimal := by
  unfold WrappedI80F48.to_decimal
  rw [h]

/-- A fold is unchanged when the step function cannot distinguish related
elements. -/
theorem foldl_forall₂ {α β : Type} {R : α → α → Prop} {f : β → α → β}
    (hf : ∀ acc b b', R b b' → f acc b = f acc b') :
    ∀ {bs bs' : List α}, List.Forall₂ R bs bs' →
      ∀ t, bs.foldl f t = bs'.foldl f t := by
  intro bs bs' h
  induction h with
  | nil => intro t; rfl
  | cons hR _ ih =>
    intro t
    simp only [List.foldl_cons]
    rw [hf t _ _ hR]
    exact ih _

/-- C10: the `WrappedI80F48` decimal conversion depends only on the first
8 bytes (the little-endian `i64` divided by `1e9`), so two values
differing only in bytes 8..15 convert equally; consequently the Marginfi
per-account totals and health ratio are unchanged when every balance's
share values are altered only in their upper 8 bytes. -/
theorem claim10_upper_bytes_ignored :
    (∀ v w : WrappedI80F48, v.value.take 8 = w.value.take 8 → v.to_decimal = w.to_decimal)
    ∧ ∀ bs bs' : List Balance, List.Forall₂ balRel bs bs' →
        marginfiTotals bs = marginfiTotals bs' ∧ marginfiHealth bs = marginfiHealth bs' := by
  refine ⟨to_decimal_congr, ?_⟩
  intro bs bs' h
  have key : marginfiTotals bs = marginfiTotals bs' := by
    unfold marginfiTotals
    refine foldl_forall₂ ?_ h (0, 0)
    intro acc b b' hR
    obtain ⟨ha, has, hls⟩ := hR
    simp only
    rw [ha, to_decimal_congr _ _ has, to_decimal_congr _ _ hls]
  refine ⟨key, ?_⟩
  unfold marginfiHealth
  rw [key]

/-- Witness for C10: two wrapped values differing only above byte 8
convert to the same decimal, and single-balance accounts built from them
have the same health. -/
theorem claim10_upper_bytes_ignored_witness :
    w80A.to_decimal = w80B.to_decimal
    ∧ marginfiHealth [balA] = marginfiHealth [balB] :=
  ⟨claim10_upper_bytes_ignored.1 w80A w80B (by decide),
   (claim10_upper_bytes_ignored.2 [balA] [balB]
      (List.Forall₂.cons (by refine ⟨rfl, ?_, ?_⟩ <;> decide) List.Forall₂.nil)).2⟩

end LiquidationBot
